import Mathlib

/-!
Shallow embedding of the JWT authentication and authorization core of the
`production-ready-go-backend-architecture` repository (Go), together with
proofs about it.  The embedding follows `actions/auth.go` (handlers,
middleware, token codec), `actions/app.go` (route wiring) and
`models/user.go` (the user model and its validation hooks).

Machine integers do not occur in the modelled code paths; times are Unix
seconds (the jwt library serializes `NumericDate` at second precision by
default), modelled as `Nat`.  Strings are Lean `String`s; Go's
byte-oriented primitives (`strings.Split`, `strings.ToLower`,
`strings.TrimSpace`) are given explicit character-list implementations so
that everything computes.  External collaborators (the jwt signing
library, bcrypt, the SQL store) are modelled by executable functions whose
doc comments say exactly what is being modelled.
-/

set_option linter.unusedVariables false

namespace GoBackend

/-- Character-level model of Go's `strings.Split(s, sep)` for a
single-character separator: splits at every occurrence, keeping empty
segments, and yields `[[]]` on the empty string (Go returns `[""]`). -/
def splitChars (sep : Char) : List Char → List (List Char)
  | [] => [[]]
  | c :: cs =>
    if c = sep then [] :: splitChars sep cs
    else
      match splitChars sep cs with
      | [] => [[c]]
      | w :: ws => (c :: w) :: ws

/-- Joins segments back with the separator; inverse of `splitChars`. -/
def joinSepChars (sep : Char) : List (List Char) → List Char
  | [] => []
  | [w] => w
  | w :: ws => w ++ sep :: joinSepChars sep ws

theorem splitChars_cons (sep c : Char) (cs : List Char) :
    splitChars sep (c :: cs) =
      if c = sep then [] :: splitChars sep cs
      else
        match splitChars sep cs with
        | [] => [[c]]
        | w :: ws => (c :: w) :: ws := rfl

theorem splitChars_ne_nil (sep : Char) (l : List Char) : splitChars sep l ≠ [] := by
  induction l with
  | nil => simp [splitChars]
  | cons c cs ih =>
    by_cases hc : c = sep
    · simp [splitChars, hc]
    · cases h : splitChars sep cs with
      | nil => exact absurd h ih
      | cons w ws => simp [splitChars, hc, h]

theorem splitChars_of_not_mem (sep : Char) (l : List Char) (h : sep ∉ l) :
    splitChars sep l = [l] := by
  induction l with
  | nil => rfl
  | cons c cs ih =>
    have hc : ¬ c = sep := fun he => h (by simp [he])
    have hcs : sep ∉ cs := fun hm => h (by simp [hm])
    simp [splitChars, hc, ih hcs]

theorem splitChars_append_sep (sep : Char) (xs ys : List Char) (h : sep ∉ xs) :
    splitChars sep (xs ++ sep :: ys) = xs :: splitChars sep ys := by
  induction xs with
  | nil => simp [splitChars]
  | cons c cs ih =>
    have hc : ¬ c = sep := fun he => h (by simp [he])
    have hcs : sep ∉ cs := fun hm => h (by simp [hm])
    rw [List.cons_append, splitChars_cons, if_neg hc, ih hcs]

theorem joinSepChars_splitChars (sep : Char) (l : List Char) :
    joinSepChars sep (splitChars sep l) = l := by
  induction l with
  | nil => rfl
  | cons c cs ih =>
    by_cases hc : c = sep
    · subst hc
      cases h : splitChars c cs with
      | nil => exact absurd h (splitChars_ne_nil c cs)
      | cons w ws =>
        rw [h] at ih
        simp [splitChars, joinSepChars, h, ih]
    · cases h : splitChars sep cs with
      | nil => exact absurd h (splitChars_ne_nil sep cs)
      | cons w ws =>
        rw [h] at ih
        cases ws with
        | nil => simp_all [splitChars, joinSepChars, hc, h]
        | cons v vs => simp_all [splitChars, joinSepChars, hc, h]

theorem length_splitChars (sep : Char) (l : List Char) :
    (splitChars sep l).length = l.count sep + 1 := by
  induction l with
  | nil => simp [splitChars]
  | cons c cs ih =>
    by_cases hc : c = sep
    · subst hc
      simp [splitChars, List.count_cons, ih]
    · cases h : splitChars sep cs with
      | nil => exact absurd h (splitChars_ne_nil sep cs)
      | cons w ws =>
        rw [h] at ih
        simp_all [splitChars, hc, h, List.count_cons]

theorem not_mem_of_mem_splitChars (sep : Char) (l w : List Char)
    (hw : w ∈ splitChars sep l) : sep ∉ w := by
  induction l generalizing w with
  | nil =>
    have : w = [] := by simpa [splitChars] using hw
    simp [this]
  | cons c cs ih =>
    rw [splitChars_cons] at hw
    by_cases hc : c = sep
    · rw [if_pos hc] at hw
      rcases List.mem_cons.mp hw with h1 | h1
      · simp [h1]
      · exact ih w h1
    · rw [if_neg hc] at hw
      cases h : splitChars sep cs with
      | nil => exact absurd h (splitChars_ne_nil sep cs)
      | cons v vs =>
        rw [h] at hw
        rcases List.mem_cons.mp hw with h1 | h1
        · subst h1
          intro hm
          rcases List.mem_cons.mp hm with hm | hm
          · exact hc hm.symm
          · exact ih v (by simp [h]) hm
        · exact ih w (by simp [h, h1])

theorem mem_of_mem_splitChars (sep : Char) (l w : List Char) (c : Char)
    (hw : w ∈ splitChars sep l) (hc : c ∈ w) : c ∈ l := by
  induction l generalizing w with
  | nil =>
    have : w = [] := by simpa [splitChars] using hw
    subst this
    simp at hc
  | cons a cs ih =>
    rw [splitChars_cons] at hw
    by_cases ha : a = sep
    · rw [if_pos ha] at hw
      rcases List.mem_cons.mp hw with h1 | h1
      · subst h1; simp at hc
      · exact List.mem_cons_of_mem _ (ih w h1 hc)
    · rw [if_neg ha] at hw
      cases h : splitChars sep cs with
      | nil => exact absurd h (splitChars_ne_nil sep cs)
      | cons v vs =>
        rw [h] at hw
        rcases List.mem_cons.mp hw with h1 | h1
        · subst h1
          rcases List.mem_cons.mp hc with hc | hc
          · simp [hc]
          · exact List.mem_cons_of_mem _ (ih v (by simp [h]) hc)
        · exact List.mem_cons_of_mem _ (ih w (by simp [h, h1]) hc)

/-- Decimal digit character, `digitChar 0 = '0'` through `digitChar 9 = '9'`. -/
def digitChar (d : Nat) : Char := Char.ofNat (48 + d)

/-- Value of a decimal digit character, `none` on non-digits. -/
def digitVal (c : Char) : Option Nat :=
  if 48 ≤ c.toNat ∧ c.toNat ≤ 57 then some (c.toNat - 48) else none

theorem digitChar_toNat (d : Nat) (h : d < 10) : (digitChar d).toNat = 48 + d := by
  interval_cases d <;> rfl

theorem digitVal_digitChar (d : Nat) (h : d < 10) : digitVal (digitChar d) = some d := by
  interval_cases d <;> rfl

theorem digitChar_digitVal (c : Char) (d : Nat) (h : digitVal c = some d) :
    digitChar d = c := by
  unfold digitVal at h
  split at h
  · rename_i hr
    have hd : d = c.toNat - 48 := by injection h with h'; omega
    have : 48 + d = c.toNat := by omega
    rw [digitChar, this, Char.ofNat_toNat]
  · exact absurd h (by simp)

theorem digitVal_lt (c : Char) (d : Nat) (h : digitVal c = some d) : d < 10 := by
  unfold digitVal at h
  split at h
  · rename_i hr
    injection h with h'
    omega
  · exact absurd h (by simp)

/-- Fuel-driven big-endian decimal printing of a natural number; fuel
`n + 1` always suffices since the argument shrinks by division by 10. -/
def natDigitsAux : Nat → Nat → List Char → List Char
  | 0, _, acc => acc
  | fuel + 1, n, acc =>
    if n < 10 then digitChar n :: acc
    else natDigitsAux fuel (n / 10) (digitChar (n % 10) :: acc)

/-- Decimal rendering of a natural number, modelling Go's / JSON's decimal
integer representation. -/
def natToStr (n : Nat) : String := String.mk (natDigitsAux (n + 1) n [])

/-- Left-to-right decimal accumulation of a digit list. -/
def natOfDigitsAux : List Char → Nat → Option Nat
  | [], acc => some acc
  | c :: cs, acc =>
    match digitVal c with
    | some d => natOfDigitsAux cs (acc * 10 + d)
    | none => none

/-- Decimal parsing of a string; mirrors JSON's integer grammar in that
the empty string, non-digits and redundant leading zeros are rejected. -/
def strToNat (s : String) : Option Nat :=
  match s.data with
  | [] => none
  | c :: cs => if c = digitChar 0 ∧ cs ≠ [] then none else natOfDigitsAux (c :: cs) 0

theorem natDigitsAux_succ (fuel n : Nat) (acc : List Char) :
    natDigitsAux (fuel + 1) n acc =
      if n < 10 then digitChar n :: acc
      else natDigitsAux fuel (n / 10) (digitChar (n % 10) :: acc) := rfl

theorem natDigitsAux_acc (fuel : Nat) : ∀ (n : Nat) (acc : List Char),
    natDigitsAux fuel n acc = natDigitsAux fuel n [] ++ acc := by
  induction fuel with
  | zero => intro n acc; rfl
  | succ f ih =>
    intro n acc
    by_cases hn : n < 10
    · simp [natDigitsAux, hn]
    · simp only [natDigitsAux, if_neg hn]
      rw [ih (n / 10) (digitChar (n % 10) :: acc), ih (n / 10) [digitChar (n % 10)]]
      simp

theorem natDigitsAux_fuel_irrel (f1 : Nat) : ∀ (f2 n : Nat) (acc : List Char),
    n < f1 → n < f2 → natDigitsAux f1 n acc = natDigitsAux f2 n acc := by
  induction f1 with
  | zero => intro f2 n acc h1 h2; omega
  | succ f ih =>
    intro f2 n acc h1 h2
    cases f2 with
    | zero => omega
    | succ g =>
      by_cases hn : n < 10
      · simp [natDigitsAux, hn]
      · simp only [natDigitsAux, if_neg hn]
        have hdiv : n / 10 < n := Nat.div_lt_self (by omega) (by omega)
        exact ih g (n / 10) _ (by omega) (by omega)

theorem natOfDigitsAux_append (l1 : List Char) : ∀ (l2 : List Char) (k : Nat),
    natOfDigitsAux (l1 ++ l2) k = (natOfDigitsAux l1 k).bind (fun m => natOfDigitsAux l2 m) := by
  induction l1 with
  | nil => intro l2 k; rfl
  | cons c cs ih =>
    intro l2 k
    simp only [List.cons_append, natOfDigitsAux]
    cases digitVal c with
    | some d => exact ih l2 (k * 10 + d)
    | none => rfl

theorem natOfDigitsAux_ge (l : List Char) : ∀ (k m : Nat),
    natOfDigitsAux l k = some m → k ≤ m := by
  induction l with
  | nil => intro k m h; injection h with h'; omega
  | cons c cs ih =>
    intro k m h
    simp only [natOfDigitsAux] at h
    cases hd : digitVal c with
    | some d =>
      rw [hd] at h
      have := ih (k * 10 + d) m h
      nlinarith
    | none => rw [hd] at h; exact absurd h (by simp)

theorem natOfDigitsAux_natDigitsAux (fuel : Nat) : ∀ (n k : Nat) (acc : List Char),
    n < fuel →
    ∃ e, natOfDigitsAux (natDigitsAux fuel n acc) k = natOfDigitsAux acc (k * e + n) := by
  induction fuel with
  | zero => intro n k acc h; omega
  | succ f ih =>
    intro n k acc h
    by_cases hn : n < 10
    · refine ⟨10, ?_⟩
      simp [natDigitsAux, hn, natOfDigitsAux, digitVal_digitChar n hn]
    · simp only [natDigitsAux, if_neg hn]
      have hdiv : n / 10 < n := Nat.div_lt_self (by omega) (by omega)
      obtain ⟨e, he⟩ := ih (n / 10) k (digitChar (n % 10) :: acc) (by omega)
      refine ⟨e * 10, ?_⟩
      rw [he]
      have hm : n % 10 < 10 := Nat.mod_lt _ (by omega)
      simp only [natOfDigitsAux, digitVal_digitChar (n % 10) hm]
      congr 1
      have := Nat.div_add_mod n 10
      nlinarith

theorem natDigitsAux_head (fuel : Nat) : ∀ (n : Nat) (acc : List Char),
    n < fuel → 10 ≤ n →
    ∃ d cs, 0 < d ∧ d < 10 ∧ natDigitsAux fuel n acc = digitChar d :: cs := by
  induction fuel with
  | zero => intro n acc h1 h2; omega
  | succ f ih =>
    intro n acc h1 h2
    have hn : ¬ n < 10 := by omega
    simp only [natDigitsAux, if_neg hn]
    have hdiv1 : 0 < n / 10 := Nat.div_pos h2 (by omega)
    have hdiv : n / 10 < n := Nat.div_lt_self (by omega) (by omega)
    by_cases hq : n / 10 < 10
    · cases f with
      | zero => omega
      | succ g =>
        refine ⟨n / 10, digitChar (n % 10) :: acc, hdiv1, hq, ?_⟩
        simp [natDigitsAux, hq]
    · exact ih (n / 10) _ (by omega) (by omega)

theorem strToNat_natToStr (n : Nat) : strToNat (natToStr n) = some n := by
  by_cases hn : n < 10
  · have hdig : natDigitsAux (n + 1) n [] = [digitChar n] := by
      rw [natDigitsAux_succ, if_pos hn]
    have : strToNat (natToStr n) =
        (if digitChar n = digitChar 0 ∧ ([] : List Char) ≠ [] then none
         else natOfDigitsAux [digitChar n] 0) := by
      rw [natToStr, hdig]; rfl
    rw [this, if_neg (by simp)]
    simp [natOfDigitsAux, digitVal_digitChar n hn]
  · obtain ⟨d, cs, hd0, hd10, hds⟩ := natDigitsAux_head (n + 1) n [] (by omega) (by omega)
    have hne : ¬ (digitChar d = digitChar 0 ∧ cs ≠ []) := by
      rintro ⟨he, _⟩
      have h2 : (digitChar d).toNat = (digitChar 0).toNat := by rw [he]
      rw [digitChar_toNat d hd10, digitChar_toNat 0 (by omega)] at h2
      omega
    have hstep : strToNat (natToStr n) =
        (if digitChar d = digitChar 0 ∧ cs ≠ [] then none
         else natOfDigitsAux (digitChar d :: cs) 0) := by
      rw [natToStr, hds]; rfl
    rw [hstep, if_neg hne, ← hds]
    obtain ⟨e, he⟩ := natOfDigitsAux_natDigitsAux (n + 1) n 0 [] (by omega)
    rw [he]
    simp [natOfDigitsAux]

theorem natDigitsAux_of_natOfDigitsAux (l : List Char) : ∀ (n : Nat),
    l ≠ [] → (∀ cs, l = digitChar 0 :: cs → cs = []) →
    natOfDigitsAux l 0 = some n → natDigitsAux (n + 1) n [] = l := by
  induction l using List.reverseRecOn with
  | nil => intro n h _ _; exact absurd rfl h
  | append_singleton ys c ih =>
    intro n hne hlead hparse
    rw [natOfDigitsAux_append ys [c] 0] at hparse
    cases hys : natOfDigitsAux ys 0 with
    | none => rw [hys] at hparse; exact absurd hparse (by simp)
    | some m =>
      rw [hys] at hparse
      simp only [Option.bind_some, natOfDigitsAux] at hparse
      cases hdv : digitVal c with
      | none => rw [hdv] at hparse; exact absurd hparse (by simp)
      | some d =>
        rw [hdv] at hparse
        simp only [natOfDigitsAux] at hparse
        have hnval : n = m * 10 + d := by injection hparse with h'; omega
        have hd10 : d < 10 := digitVal_lt c d hdv
        have hcd : digitChar d = c := digitChar_digitVal c d hdv
        cases ys with
        | nil =>
          have hm0 : m = 0 := by
            simp [natOfDigitsAux] at hys
            omega
          subst hm0
          have hnd : n = d := by omega
          subst hnd
          rw [natDigitsAux_succ, if_pos hd10, hcd]
          rfl
        | cons y ys' =>
          have hylead : y ≠ digitChar 0 := by
            intro he
            have := hlead (ys' ++ [c]) (by simp [he])
            simp at this
          have hyslead : ∀ cs, (y :: ys') = digitChar 0 :: cs → cs = [] := by
            intro cs hcs
            simp only [List.cons.injEq] at hcs
            exact absurd hcs.1 hylead
          have hm1 : 1 ≤ m := by
            simp only [natOfDigitsAux] at hys
            cases hdy : digitVal y with
            | none => rw [hdy] at hys; exact absurd hys (by simp)
            | some dy =>
              rw [hdy] at hys
              have hge := natOfDigitsAux_ge ys' (0 * 10 + dy) m hys
              have : dy ≠ 0 := by
                intro he0
                exact hylead ((he0 ▸ digitChar_digitVal y dy hdy).symm)
              omega
          have hih := ih m (by simp) hyslead hys
          have hn10 : 10 ≤ n := by omega
          have hstep : natDigitsAux (n + 1) n [] =
              natDigitsAux n (n / 10) [digitChar (n % 10)] := by
            rw [natDigitsAux_succ, if_neg (by omega : ¬ n < 10)]
          have hdivm : n / 10 = m := by
            rw [hnval, Nat.mul_comm m 10, Nat.mul_add_div (by omega)]
            simp [Nat.div_eq_of_lt hd10]
          have hmodd : n % 10 = d := by
            rw [hnval, Nat.mul_comm m 10, Nat.mul_add_mod]
            exact Nat.mod_eq_of_lt hd10
          rw [hstep, hdivm, hmodd]
          rw [natDigitsAux_fuel_irrel n (m + 1) m [digitChar d] (by omega) (by omega)]
          rw [natDigitsAux_acc (m + 1) m [digitChar d], hih, hcd]

theorem natToStr_of_strToNat (s : String) (n : Nat) (h : strToNat s = some n) :
    natToStr n = s := by
  cases s with
  | mk data =>
    cases data with
    | nil =>
      have h0 : (none : Option Nat) = some n := h
      exact absurd h0 (by simp)
    | cons c cs =>
      have h2 : (if c = digitChar 0 ∧ cs ≠ [] then none
                 else natOfDigitsAux (c :: cs) 0) = some n := h
      by_cases hcond : c = digitChar 0 ∧ cs ≠ []
      · rw [if_pos hcond] at h2
        exact absurd h2 (by simp)
      · rw [if_neg hcond] at h2
        have hlead : ∀ ds, (c :: cs) = digitChar 0 :: ds → ds = [] := by
          intro ds hds
          simp only [List.cons.injEq] at hds
          by_contra hne2
          exact hcond ⟨hds.1, by rw [hds.2]; exact hne2⟩
        have hdig := natDigitsAux_of_natOfDigitsAux (c :: cs) n (by simp) hlead h2
        rw [natToStr, hdig]

theorem mem_natDigitsAux (fuel : Nat) : ∀ (n : Nat) (acc : List Char) (c : Char),
    c ∈ natDigitsAux fuel n acc → c ∈ acc ∨ ∃ d, d < 10 ∧ c = digitChar d := by
  induction fuel with
  | zero => intro n acc c h; exact Or.inl h
  | succ f ih =>
    intro n acc c h
    by_cases hn : n < 10
    · simp only [natDigitsAux, if_pos hn, List.mem_cons] at h
      rcases h with h | h
      · exact Or.inr ⟨n, hn, h⟩
      · exact Or.inl h
    · simp only [natDigitsAux, if_neg hn] at h
      rcases ih (n / 10) _ c h with h | h
      · rcases List.mem_cons.mp h with h | h
        · exact Or.inr ⟨n % 10, Nat.mod_lt _ (by omega), h⟩
        · exact Or.inl h
      · exact Or.inr h

theorem mem_natToStr (n : Nat) (c : Char) (h : c ∈ (natToStr n).data) :
    ∃ d, d < 10 ∧ c = digitChar d := by
  have := mem_natDigitsAux (n + 1) n [] c h
  rcases this with h | h
  · simp at h
  · exact h

/-! ## Go string helpers (models of the standard library functions used) -/

/-- Space character, the separator of `strings.Split(authHeader, " ")`. -/
def spaceChar : Char := Char.ofNat 32

/-- Model of Go's `strings.Split(s, " ")`. -/
def goSplitSpace (s : String) : List String :=
  (splitChars spaceChar s.data).map String.mk

/-- ASCII lower-casing of one character; models `strings.ToLower` on the
ASCII range (the repository's emails/roles are ASCII). -/
def goLowerChar (c : Char) : Char :=
  if 65 ≤ c.toNat ∧ c.toNat ≤ 90 then Char.ofNat (c.toNat + 32) else c

/-- Model of Go's `strings.ToLower`. -/
def goToLower (s : String) : String := String.mk (s.data.map goLowerChar)

/-- Model of `unicode.IsSpace` on the ASCII range. -/
def isGoSpaceChar (c : Char) : Bool :=
  c.toNat = 32 || c.toNat = 9 || c.toNat = 10 || c.toNat = 13 || c.toNat = 11 || c.toNat = 12

/-- Model of Go's `strings.TrimSpace`. -/
def goTrimSpace (s : String) : String :=
  String.mk (((s.data.dropWhile isGoSpaceChar).reverse.dropWhile isGoSpaceChar).reverse)

/-! ## Data model: `models/user.go` -/

/-- Opaque unique identifier (`github.com/gofrs/uuid`), modelled by its
canonical string rendering; `UUID.val` plays the role of `uuid.UUID.String()`. -/
structure UUID where
  val : String
deriving DecidableEq

def isHexDigitChar (c : Char) : Bool :=
  (48 ≤ c.toNat && c.toNat ≤ 57) || (97 ≤ c.toNat && c.toNat ≤ 102) || (65 ≤ c.toNat && c.toNat ≤ 70)

/-- Canonical 8-4-4-4-12 UUID format accepted by `uuid.FromString`
(hyphens at indices 8, 13, 18, 23; hex digits elsewhere). -/
def isCanonicalUUID (s : String) : Bool :=
  s.data.length = 36 &&
  (List.range 36).all (fun i =>
    if i = 8 || i = 13 || i = 18 || i = 23 then s.data.getD i (Char.ofNat 0) = Char.ofNat 45
    else isHexDigitChar (s.data.getD i (Char.ofNat 0)))

/-- Model of `uuid.FromString`: succeeds exactly on well-formed identifiers. -/
def uuidFromString (s : String) : Option UUID :=
  if isCanonicalUUID s then some ⟨s⟩ else none

/-- Roles from `models/user.go`. -/
def RoleUser : String := "user"

def RoleAdmin : String := "admin"

/-- The `models.User` record.  Field names and roles follow the Go struct;
`password` and `passwordConfirm` are the virtual (non-persisted) inputs.
Timestamps are Unix seconds. -/
structure User where
  id : UUID
  name : String
  email : String
  passwordHash : String
  role : String
  createdAt : Nat
  updatedAt : Nat
  password : String
  passwordConfirm : String
deriving DecidableEq

/-- Model of the external `bcrypt.GenerateFromPassword`: a deterministic
injective one-way function (the salt is irrelevant to the control flow
being verified; `CompareHashAndPassword` is modelled as equality with the
recomputed hash). -/
def bcryptGenerateFromPassword (password : String) : String :=
  "bcrypt-hash:" ++ password

/-- `User.SetPassword` from `models/user.go`. -/
def User.SetPassword (u : User) (password : String) : User :=
  { u with passwordHash := bcryptGenerateFromPassword password }

/-- `User.ValidatePassword` from `models/user.go` (true iff
`bcrypt.CompareHashAndPassword(hash, password)` succeeds). -/
def User.ValidatePassword (u : User) (password : String) : Bool :=
  u.passwordHash == bcryptGenerateFromPassword password

/-- `User.IsAdmin` from `models/user.go`. -/
def User.IsAdmin (u : User) : Bool := u.role == RoleAdmin

/-- `User.IsUser` from `models/user.go`. -/
def User.IsUser (u : User) : Bool := u.role == RoleUser

/-- Outward JSON fields of a `models.User`, read off the struct's json
tags: `id`, `name`, `email`, `role`, `created_at`, `updated_at` are
serialized; `PasswordHash`, `Password` and `PasswordConfirm` carry the
tag `json:"-"` and are omitted. -/
def userJSONFields (u : User) : List (String × String) :=
  [("id", u.id.val), ("name", u.name), ("email", u.email), ("role", u.role),
   ("created_at", natToStr u.createdAt), ("updated_at", natToStr u.updatedAt)]

/-- Fields marshalled by `User.String()`, which copies the record into an
anonymous safe struct without the sensitive fields before `json.Marshal`. -/
def userStringFields (u : User) : List (String × String) :=
  [("id", u.id.val), ("name", u.name), ("email", u.email), ("role", u.role),
   ("created_at", natToStr u.createdAt), ("updated_at", natToStr u.updatedAt)]

/-! ## Credential store (the pop/SQL collaborator) as a list of rows -/

/-- Model of `DB.Where("email = ?", e).First(u)`: first row whose stored
email equals the key. -/
def findByEmail (db : List User) (email : String) : Option User :=
  db.find? (fun u => u.email == email)

/-- Model of `DB.Find(u, userID)`: row with the given primary key. -/
def dbFindByID (db : List User) (userID : UUID) : Option User :=
  db.find? (fun u => u.id.val == userID.val)

/-! ## Token codec: `GenerateJWT` / `ValidateJWT` from `actions/auth.go` -/

/-- The process-wide signing secret: `envy.Get("JWT_SECRET", default)`;
the model uses the source's insecure default (nothing below depends on the
particular value, only on its being a fixed key with no separator bytes). -/
def jwtSecretKey : String := "your-super-secret-jwt-key-change-in-production"

/-- The `JWTClaims` struct: custom fields `user_id`, `email`, `role` plus
the registered claims `exp`, `iat`, `nbf`, `iss`, `sub` that
`GenerateJWT` fills in. -/
structure JWTClaims where
  userID : String
  email : String
  role : String
  expiresAt : Nat
  issuedAt : Nat
  notBefore : Nat
  issuer : String
  subject : String
deriving DecidableEq

/-- Field separator of the modelled token wire format (unit separator,
a byte that never occurs in well-formed ids, emails or roles). -/
def sepF : Char := Char.ofNat 31

/-- Payload/signature separator of the modelled token wire format. -/
def sepS : Char := Char.ofNat 30

def fSep : String := String.mk [sepF]

def sSep : String := String.mk [sepS]

/-- Serialization of the claims, modelling the external jwt library's
opaque claim encoding: the eight claim fields in a fixed order with
numeric claims in decimal. -/
def encodeClaims (c : JWTClaims) : String :=
  c.userID ++ fSep ++ c.email ++ fSep ++ c.role ++ fSep ++
  natToStr c.expiresAt ++ fSep ++ natToStr c.issuedAt ++ fSep ++
  natToStr c.notBefore ++ fSep ++ c.issuer ++ fSep ++ c.subject

/-- Model of the external HMAC-SHA256 signer: a deterministic MAC,
collision-freeness modelled by embedding key and message. -/
def hmacSig (key msg : String) : String := "sig:" ++ key ++ ":" ++ msg

/-- A signed token string: payload, separator, signature over the payload
(models `token.SignedString(jwtSecretKey)`). -/
def signToken (c : JWTClaims) (key : String) : String :=
  encodeClaims c ++ sSep ++ hmacSig key (encodeClaims c)

/-- Structural parsing of a claim payload (inverse of `encodeClaims`);
`none` models a structurally malformed payload. -/
def parseClaims (p : String) : Option JWTClaims :=
  match splitChars sepF p.data with
  | [f1, f2, f3, f4, f5, f6, f7, f8] =>
    match strToNat (String.mk f4), strToNat (String.mk f5), strToNat (String.mk f6) with
    | some e, some i, some nb =>
      some ⟨String.mk f1, String.mk f2, String.mk f3, e, i, nb, String.mk f7, String.mk f8⟩
    | _, _, _ => none
  | _ => none

/-- Error taxonomy of the external jwt library as surfaced by
`ValidateJWT` (the middleware collapses all of them to "Invalid token"). -/
inductive JWTError
  | tokenMalformed
  | tokenSignatureInvalid
  | tokenExpired
  | tokenNotValidYet
deriving DecidableEq

/-- `ValidateJWT` from `actions/auth.go`: `jwt.ParseWithClaims` checks
structure, then the HMAC signature against the process secret, then the
registered validity claims — expired when the current time is past `exp`,
not yet valid when before `nbf` (second precision, the library's
default `TimePrecision`). -/
def ValidateJWT (tokenString : String) (now : Nat) : Except JWTError JWTClaims :=
  match splitChars sepS tokenString.data with
  | [payload, sig] =>
    if String.mk sig = hmacSig jwtSecretKey (String.mk payload) then
      match parseClaims (String.mk payload) with
      | some claims =>
        if claims.expiresAt < now then .error .tokenExpired
        else if now < claims.notBefore then .error .tokenNotValidYet
        else .ok claims
      | none => .error .tokenMalformed
    else .error .tokenSignatureInvalid
  | _ => .error .tokenMalformed

/-- `GenerateJWT` from `actions/auth.go`: claims carry the user's id (as
`user_id` and `sub`), email and role, with `exp = now + 24h`,
`iat = nbf = now` and the fixed issuer tag.  `now` is the current Unix
second (the only time-dependent input that survives serialization, since
`NumericDate` marshals at second precision). -/
def GenerateJWT (user : User) (now : Nat) : String × Nat :=
  let expirationTime := now + 24 * 3600
  let claims : JWTClaims :=
    { userID := user.id.val
      email := user.email
      role := user.role
      expiresAt := expirationTime
      issuedAt := now
      notBefore := now
      issuer := "production-ready-go-backend"
      subject := user.id.val }
  (signToken claims jwtSecretKey, expirationTime)

/-! ## Model validation hooks: `Validate` / `ValidateCreate` -/

/-- Executable model of the anchored email regexp in `models/user.go`
(`^[a-zA-Z0-9._%+-]+@[a-zA-Z0-9.-]+\.[a-zA-Z]{2,}$`); the gobuffalo
`EmailIsPresent` validator is modelled with the same predicate. -/
def isAlphaChar (c : Char) : Bool :=
  (65 ≤ c.toNat && c.toNat ≤ 90) || (97 ≤ c.toNat && c.toNat ≤ 122)

def isDigitChar (c : Char) : Bool := 48 ≤ c.toNat && c.toNat ≤ 57

def isEmailLocalChar (c : Char) : Bool :=
  isAlphaChar c || isDigitChar c ||
  c.toNat = 46 || c.toNat = 95 || c.toNat = 37 || c.toNat = 43 || c.toNat = 45

def isEmailDomainChar (c : Char) : Bool :=
  isAlphaChar c || isDigitChar c || c.toNat = 46 || c.toNat = 45

def emailRegexMatches (s : String) : Bool :=
  match splitChars (Char.ofNat 64) s.data with
  | [lpart, dpart] =>
    !lpart.isEmpty && lpart.all isEmailLocalChar &&
    (let run := dpart.reverse.takeWhile isAlphaChar
     let rest := dpart.reverse.drop run.length
     2 ≤ run.length &&
     (match rest with
      | dot :: before => dot = Char.ofNat 46 && !before.isEmpty && before.all isEmailDomainChar
      | [] => false))
  | _ => false

/-- `User.Validate` from `models/user.go`: normalizes email (lowercase,
trim) and name (trim), defaults the role to `user`, then collects
validation errors.  Returns the normalized record and the error list as
ordered (field, message) pairs (the gobuffalo `Errors` map is
determinized to source order). -/
def User.Validate (u : User) : User × List (String × String) :=
  let u1 : User := { u with email := goToLower (goTrimSpace u.email), name := goTrimSpace u.name }
  let u2 : User := if u1.role = "" then { u1 with role := RoleUser } else u1
  let e1 := if u2.name = "" then [("name", "Name can not be blank.")] else []
  let e2 := if 2 ≤ u2.name.length ∧ u2.name.length ≤ 100 then []
            else [("name", "Name not in range(2, 100)")]
  let e3 := if u2.email = "" then [("email", "Email can not be blank.")] else []
  let e4 := if emailRegexMatches u2.email then []
            else [("email", "Email does not match the email format.")]
  let e5 := if u2.role ≠ "" ∧ u2.role ≠ RoleUser ∧ u2.role ≠ RoleAdmin then
              [("role", "Role must be either 'user' or 'admin'")]
            else []
  let e6 := if emailRegexMatches u2.email then []
            else [("email", "Email format is invalid")]
  (u2, e1 ++ e2 ++ e3 ++ e4 ++ e5 ++ e6)

/-- `User.ValidateCreate` from `models/user.go`: password presence and
length bounds, confirmation match when a confirmation was supplied, and
the case-insensitive email-uniqueness probe against the store. -/
def User.ValidateCreate (db : List User) (u : User) : List (String × String) :=
  let perrs :=
    if u.password = "" then [("password", "Password is required")]
    else
      (if u.password.length < 8 then [("password", "Password must be at least 8 characters long")] else []) ++
      (if 100 < u.password.length then [("password", "Password must be less than 100 characters")] else []) ++
      (if u.passwordConfirm ≠ "" ∧ u.password ≠ u.passwordConfirm then
         [("password_confirm", "Password confirmation does not match")]
       else [])
  let eerrs :=
    match findByEmail db (goToLower u.email) with
    | some _ => [("email", "Email is already taken")]
    | none => []
  perrs ++ eerrs

/-- Joins several messages for one field, as
`strings.Join(verrs.Get(key), ", ")` does in `RegisterHandler`. -/
def joinReasons (sep : String) : List String → String
  | [] => ""
  | [s] => s
  | s :: rest => s ++ sep ++ joinReasons sep rest

/-- The per-field detail map `{field: joined reasons}` built by
`RegisterHandler` from the validation errors. -/
def errorDetails (errs : List (String × String)) : List (String × String) :=
  ((errs.map Prod.fst).dedup).map
    (fun k => (k, joinReasons ", " ((errs.filter (fun e => e.fst == k)).map Prod.snd)))

/-- Model of pop's `ValidateAndCreate`: run `Validate` then
`ValidateCreate`; with no errors, run the `BeforeCreate` hook (hash the
password) and insert with a fresh id and timestamps.  Store I/O failures
are outside the model. -/
def validateAndCreate (db : List User) (u : User) (freshId : UUID) (now : Nat) :
    List (String × String) × Option User :=
  let vu := User.Validate u
  let verrs := vu.2 ++ User.ValidateCreate db vu.1
  if verrs = [] then
    let u2 := if vu.1.password ≠ "" then User.SetPassword vu.1 vu.1.password else vu.1
    ([], some { u2 with id := freshId, createdAt := now, updatedAt := now })
  else (verrs, none)

/-! ## HTTP layer: requests, responses, handlers, middleware -/

structure RegisterRequest where
  name : String
  email : String
  password : String
  passwordConfirm : String
deriving DecidableEq

structure LoginRequest where
  email : String
  password : String
deriving DecidableEq

/-- Rendered JSON bodies: `AuthResponse`, a bare user, or
`ErrorResponse` (whose `details` map is omitted when empty —
represented by `[]`). -/
inductive ResponseBody
  | auth (token : String) (user : User) (expiresAt : Nat)
  | userBody (user : User)
  | err (error : String) (details : List (String × String))
deriving DecidableEq

structure HttpResponse where
  status : Nat
  body : ResponseBody
deriving DecidableEq

/-- The `models.User` value `RegisterHandler` builds from the request
(zero values for the store-managed fields, role defaulted to `user`). -/
def registerUser (req : RegisterRequest) : User :=
  { id := ⟨"00000000-0000-0000-0000-000000000000"⟩
    name := req.name
    email := req.email
    passwordHash := ""
    role := RoleUser
    createdAt := 0
    updatedAt := 0
    password := req.password
    passwordConfirm := req.passwordConfirm }

/-- `RegisterHandler` from `actions/auth.go`.  `freshId`/`now` stand for
the store-assigned id and the request's clock reading; request binding
failures and store I/O failures are outside the model. -/
def RegisterHandler (db : List User) (req : RegisterRequest) (freshId : UUID) (now : Nat) :
    HttpResponse :=
  if req.password ≠ req.passwordConfirm then
    ⟨400, .err "Password confirmation does not match" []⟩
  else
    let vc := validateAndCreate db (registerUser req) freshId now
    if vc.1 ≠ [] then ⟨400, .err "Validation failed" (errorDetails vc.1)⟩
    else
      match vc.2 with
      | some created => ⟨201, .auth (GenerateJWT created now).1 created (GenerateJWT created now).2⟩
      | none => ⟨500, .err "Failed to create user" []⟩

/-- `LoginHandler` from `actions/auth.go`: the lookup key is
`strings.ToLower(req.Email)` (lower-cased only — the submitted email is
not trimmed), and both the no-such-user and the wrong-password branches
render the identical 401 body. -/
def LoginHandler (db : List User) (req : LoginRequest) (now : Nat) : HttpResponse :=
  match findByEmail db (goToLower req.email) with
  | none => ⟨401, .err "Invalid credentials" []⟩
  | some user =>
    if !(User.ValidatePassword user req.password) then ⟨401, .err "Invalid credentials" []⟩
    else ⟨200, .auth (GenerateJWT user now).1 user (GenerateJWT user now).2⟩

/-- `MeHandler` from `actions/auth.go`. -/
def MeHandler (currentUser : Option User) : HttpResponse :=
  match currentUser with
  | none => ⟨401, .err "Unauthorized" []⟩
  | some user => ⟨200, .userBody user⟩

/-- `RefreshTokenHandler` from `actions/auth.go` (the Go type assertion
on the context value cannot fail in the model). -/
def RefreshTokenHandler (currentUser : Option User) (now : Nat) : HttpResponse :=
  match currentUser with
  | none => ⟨401, .err "Unauthorized" []⟩
  | some u => ⟨200, .auth (GenerateJWT u now).1 u (GenerateJWT u now).2⟩

/-- Outcome of a middleware: short-circuit with a response, or continue
to the wrapped handler with the resolved identity bound in the context. -/
inductive MWResult
  | halt (resp : HttpResponse)
  | proceed (user : User) (userID : UUID)
deriving DecidableEq

/-- `AuthMiddleware` from `actions/auth.go`.  `authHeader` is
`c.Request().Header.Get("Authorization")` (the empty string when the
header is absent).  The checks run in source order: header presence,
`Bearer`-format (exactly two space-separated parts), token decode,
subject-id parse, store lookup. -/
def AuthMiddleware (db : List User) (authHeader : String) (now : Nat) : MWResult :=
  if authHeader = "" then .halt ⟨401, .err "Authorization header required" []⟩
  else
    match goSplitSpace authHeader with
    | [scheme, tokenStr] =>
      if scheme ≠ "Bearer" then .halt ⟨401, .err "Invalid authorization header format" []⟩
      else
        match ValidateJWT tokenStr now with
        | .error _ => .halt ⟨401, .err "Invalid token" []⟩
        | .ok claims =>
          match uuidFromString claims.userID with
          | none => .halt ⟨401, .err "Invalid user ID in token" []⟩
          | some userID =>
            match dbFindByID db userID with
            | none => .halt ⟨401, .err "User not found" []⟩
            | some user => .proceed user userID
    | _ => .halt ⟨401, .err "Invalid authorization header format" []⟩

/-- Outcome of the role gate. -/
inductive AdminResult
  | halt (resp : HttpResponse)
  | next
deriving DecidableEq

/-- `AdminMiddleware` from `actions/auth.go`: composes after
`AuthMiddleware`; with no bound identity it renders 401, with a
non-admin identity 403, otherwise it continues. -/
def AdminMiddleware (currentUser : Option User) : AdminResult :=
  match currentUser with
  | none => .halt ⟨401, .err "Unauthorized" []⟩
  | some u => if !(User.IsAdmin u) then .halt ⟨403, .err "Admin access required" []⟩ else .next

/-! ## Infrastructure lemmas for the token codec -/

theorem data_mk (l : List Char) : (String.mk l).data = l := rfl

theorem string_eq_of_data_eq (s t : String) (h : s.data = t.data) : s = t := by
  cases s; cases t; cases h; rfl

/-- Well-formedness of a token claim field: free of the wire separators
and of the header space (true of every canonical uuid, email address and
role name). -/
abbrev cleanStr (s : String) : Prop :=
  sepF ∉ s.data ∧ sepS ∉ s.data ∧ spaceChar ∉ s.data

/-- Well-formedness of all the string-valued claim fields. -/
abbrev cleanClaims (c : JWTClaims) : Prop :=
  cleanStr c.userID ∧ cleanStr c.email ∧ cleanStr c.role ∧ cleanStr c.issuer ∧ cleanStr c.subject

theorem not_mem_natToStr_of_lt (n : Nat) (c : Char) (hc : c.toNat < 48) :
    c ∉ (natToStr n).data := by
  intro hm
  obtain ⟨d, hd, he⟩ := mem_natToStr n c hm
  subst he
  rw [digitChar_toNat d hd] at hc
  omega

theorem natToStr_cleanStr (n : Nat) : cleanStr (natToStr n) :=
  ⟨not_mem_natToStr_of_lt n sepF (by decide),
   not_mem_natToStr_of_lt n sepS (by decide),
   not_mem_natToStr_of_lt n spaceChar (by decide)⟩

theorem encodeClaims_data (c : JWTClaims) :
    (encodeClaims c).data =
      c.userID.data ++ sepF :: (c.email.data ++ sepF :: (c.role.data ++ sepF ::
      ((natToStr c.expiresAt).data ++ sepF :: ((natToStr c.issuedAt).data ++ sepF ::
      ((natToStr c.notBefore).data ++ sepF :: (c.issuer.data ++ sepF :: c.subject.data)))))) := by
  simp [encodeClaims, fSep, String.data_append, data_mk, List.append_assoc]

theorem mem_encodeClaims (c : JWTClaims) (ch : Char) (h : ch ∈ (encodeClaims c).data) :
    ch ∈ c.userID.data ∨ ch ∈ c.email.data ∨ ch ∈ c.role.data ∨
    ch ∈ (natToStr c.expiresAt).data ∨ ch ∈ (natToStr c.issuedAt).data ∨
    ch ∈ (natToStr c.notBefore).data ∨ ch ∈ c.issuer.data ∨ ch ∈ c.subject.data ∨
    ch = sepF := by
  rw [encodeClaims_data] at h
  simp only [List.mem_append, List.mem_cons] at h
  tauto

theorem sepS_not_mem_encodeClaims (c : JWTClaims) (hc : cleanClaims c) :
    sepS ∉ (encodeClaims c).data := by
  intro h
  rcases mem_encodeClaims c sepS h with h | h | h | h | h | h | h | h | h
  · exact hc.1.2.1 h
  · exact hc.2.1.2.1 h
  · exact hc.2.2.1.2.1 h
  · exact (natToStr_cleanStr _).2.1 h
  · exact (natToStr_cleanStr _).2.1 h
  · exact (natToStr_cleanStr _).2.1 h
  · exact hc.2.2.2.1.2.1 h
  · exact hc.2.2.2.2.2.1 h
  · exact absurd h (by decide)

theorem space_not_mem_encodeClaims (c : JWTClaims) (hc : cleanClaims c) :
    spaceChar ∉ (encodeClaims c).data := by
  intro h
  rcases mem_encodeClaims c spaceChar h with h | h | h | h | h | h | h | h | h
  · exact hc.1.2.2 h
  · exact hc.2.1.2.2 h
  · exact hc.2.2.1.2.2 h
  · exact (natToStr_cleanStr _).2.2 h
  · exact (natToStr_cleanStr _).2.2 h
  · exact (natToStr_cleanStr _).2.2 h
  · exact hc.2.2.2.1.2.2 h
  · exact hc.2.2.2.2.2.2 h
  · exact absurd h (by decide)

theorem hmacSig_data (key msg : String) :
    (hmacSig key msg).data = "sig:".data ++ key.data ++ ":".data ++ msg.data := by
  simp [hmacSig, String.data_append]

theorem sepS_not_mem_hmacSig (key msg : String) (hk : sepS ∉ key.data)
    (hm : sepS ∉ msg.data) : sepS ∉ (hmacSig key msg).data := by
  intro h
  rw [hmacSig_data] at h
  simp only [List.mem_append] at h
  rcases h with ((h | h) | h) | h
  · exact absurd h (by decide)
  · exact hk h
  · exact absurd h (by decide)
  · exact hm h

theorem space_not_mem_hmacSig (key msg : String) (hk : spaceChar ∉ key.data)
    (hm : spaceChar ∉ msg.data) : spaceChar ∉ (hmacSig key msg).data := by
  intro h
  rw [hmacSig_data] at h
  simp only [List.mem_append] at h
  rcases h with ((h | h) | h) | h
  · exact absurd h (by decide)
  · exact hk h
  · exact absurd h (by decide)
  · exact hm h

theorem jwtSecretKey_clean : cleanStr jwtSecretKey := by decide

theorem issuerTag_clean : cleanStr "production-ready-go-backend" := by decide

theorem signToken_data (c : JWTClaims) (key : String) :
    (signToken c key).data =
      (encodeClaims c).data ++ sepS :: (hmacSig key (encodeClaims c)).data := by
  simp [signToken, sSep, String.data_append, data_mk]

theorem splitChars_signToken (c : JWTClaims) (key : String) (hc : cleanClaims c)
    (hk : sepS ∉ key.data) :
    splitChars sepS (signToken c key).data =
      [(encodeClaims c).data, (hmacSig key (encodeClaims c)).data] := by
  rw [signToken_data,
    splitChars_append_sep sepS _ _ (sepS_not_mem_encodeClaims c hc),
    splitChars_of_not_mem sepS _
      (sepS_not_mem_hmacSig key _ hk (sepS_not_mem_encodeClaims c hc))]

theorem space_not_mem_signToken (c : JWTClaims) (hc : cleanClaims c) :
    spaceChar ∉ (signToken c jwtSecretKey).data := by
  intro h
  rw [signToken_data] at h
  rcases List.mem_append.mp h with h | h
  · exact space_not_mem_encodeClaims c hc h
  · rcases List.mem_cons.mp h with h | h
    · exact absurd h (by decide)
    · exact space_not_mem_hmacSig jwtSecretKey _ jwtSecretKey_clean.2.2
        (space_not_mem_encodeClaims c hc) h

theorem splitChars_eight (sep : Char) (f1 f2 f3 f4 f5 f6 f7 f8 : List Char)
    (h1 : sep ∉ f1) (h2 : sep ∉ f2) (h3 : sep ∉ f3) (h4 : sep ∉ f4)
    (h5 : sep ∉ f5) (h6 : sep ∉ f6) (h7 : sep ∉ f7) (h8 : sep ∉ f8) :
    splitChars sep (f1 ++ sep :: (f2 ++ sep :: (f3 ++ sep :: (f4 ++ sep ::
      (f5 ++ sep :: (f6 ++ sep :: (f7 ++ sep :: f8))))))) =
      [f1, f2, f3, f4, f5, f6, f7, f8] := by
  rw [splitChars_append_sep sep _ _ h1, splitChars_append_sep sep _ _ h2,
    splitChars_append_sep sep _ _ h3, splitChars_append_sep sep _ _ h4,
    splitChars_append_sep sep _ _ h5, splitChars_append_sep sep _ _ h6,
    splitChars_append_sep sep _ _ h7, splitChars_of_not_mem sep _ h8]

theorem parseClaims_encodeClaims (c : JWTClaims) (hc : cleanClaims c) :
    parseClaims (encodeClaims c) = some c := by
  unfold parseClaims
  rw [encodeClaims_data,
    splitChars_eight sepF _ _ _ _ _ _ _ _ hc.1.1 hc.2.1.1 hc.2.2.1.1
      (natToStr_cleanStr _).1 (natToStr_cleanStr _).1 (natToStr_cleanStr _).1
      hc.2.2.2.1.1 hc.2.2.2.2.1]
  have h4 := strToNat_natToStr c.expiresAt
  have h5 := strToNat_natToStr c.issuedAt
  have h6 := strToNat_natToStr c.notBefore
  simp only [data_mk]
  have hmk : ∀ s : String, String.mk s.data = s := fun s => string_eq_of_data_eq _ _ rfl
  rw [hmk, hmk, hmk]
  simp [h4, h5, h6, hmk]

theorem validateJWT_signToken (c : JWTClaims) (now : Nat) (hc : cleanClaims c)
    (hexp : ¬ c.expiresAt < now) (hnbf : ¬ now < c.notBefore) :
    ValidateJWT (signToken c jwtSecretKey) now = .ok c := by
  unfold ValidateJWT
  rw [splitChars_signToken c jwtSecretKey hc jwtSecretKey_clean.2.1]
  have hmk : ∀ s : String, String.mk s.data = s := fun s => string_eq_of_data_eq _ _ rfl
  simp [hmk, parseClaims_encodeClaims c hc, hexp, hnbf]

theorem encodeClaims_of_parseClaims (p : String) (c : JWTClaims)
    (h : parseClaims p = some c) : encodeClaims c = p := by
  unfold parseClaims at h
  split at h
  · rename_i x0 f1 f2 f3 f4 f5 f6 f7 f8 heq
    split at h
    · rename_i o1 o2 o3 e i nb he hi hnb
      have hc := Option.some.inj h
      subst hc
      apply string_eq_of_data_eq
      rw [encodeClaims_data]
      have hjoin := joinSepChars_splitChars sepF p.data
      rw [heq] at hjoin
      have hjoin2 : f1 ++ sepF :: (f2 ++ sepF :: (f3 ++ sepF :: (f4 ++ sepF ::
          (f5 ++ sepF :: (f6 ++ sepF :: (f7 ++ sepF :: f8)))))) = p.data := by
        simpa [joinSepChars] using hjoin
      rw [← hjoin2]
      have h4 : natToStr e = String.mk f4 := natToStr_of_strToNat _ _ he
      have h5 : natToStr i = String.mk f5 := natToStr_of_strToNat _ _ hi
      have h6 : natToStr nb = String.mk f6 := natToStr_of_strToNat _ _ hnb
      simp [data_mk, h4, h5, h6]
    · exact absurd h (by simp)
  · exact absurd h (by simp)

theorem validateJWT_ok_inv (s : String) (now : Nat) (c : JWTClaims)
    (h : ValidateJWT s now = .ok c) :
    c.notBefore ≤ now ∧ now ≤ c.expiresAt ∧ s = signToken c jwtSecretKey := by
  unfold ValidateJWT at h
  split at h
  · rename_i x0 payload sig heq
    split at h
    · rename_i hsig
      split at h
      · rename_i x1 claims hparse
        split at h
        · exact absurd h (by simp)
        · split at h
          · exact absurd h (by simp)
          · rename_i hexp hnbf
            have hcc := Except.ok.inj h
            subst hcc
            refine ⟨by omega, by omega, ?_⟩
            have henc := encodeClaims_of_parseClaims (String.mk payload) claims hparse
            apply string_eq_of_data_eq
            rw [signToken_data]
            have hjoin := joinSepChars_splitChars sepS s.data
            rw [heq] at hjoin
            have hjoin2 : payload ++ sepS :: sig = s.data := by
              simpa [joinSepChars] using hjoin
            rw [← hjoin2, henc, ← hsig]
      · exact absurd h (by simp)
    · exact absurd h (by simp)
  · exact absurd h (by simp)

theorem signToken_inj (c1 c2 : JWTClaims) (h1 : cleanClaims c1) (h2 : cleanClaims c2)
    (h : signToken c1 jwtSecretKey = signToken c2 jwtSecretKey) : c1 = c2 := by
  have hs : splitChars sepS (signToken c1 jwtSecretKey).data =
      splitChars sepS (signToken c2 jwtSecretKey).data := by rw [h]
  rw [splitChars_signToken c1 _ h1 jwtSecretKey_clean.2.1,
    splitChars_signToken c2 _ h2 jwtSecretKey_clean.2.1] at hs
  have henc : (encodeClaims c1).data = (encodeClaims c2).data := by
    simp only [List.cons.injEq] at hs
    exact hs.1
  have henc2 : encodeClaims c1 = encodeClaims c2 := string_eq_of_data_eq _ _ henc
  have hp := parseClaims_encodeClaims c1 h1
  rw [henc2, parseClaims_encodeClaims c2 h2] at hp
  exact (Option.some.inj hp).symm

/-! ## Helper lemmas for the middleware and handlers -/

theorem mk_data (s : String) : String.mk s.data = s := string_eq_of_data_eq _ _ rfl

theorem goSplitSpace_ne_nil (s : String) : goSplitSpace s ≠ [] := by
  unfold goSplitSpace
  intro h
  exact splitChars_ne_nil spaceChar s.data (List.map_eq_nil_iff.mp h)

theorem goSplitSpace_length (s : String) :
    (goSplitSpace s).length = s.data.count spaceChar + 1 := by
  unfold goSplitSpace
  rw [List.length_map, length_splitChars]

theorem string_ne_empty_of_data_ne (s : String) (h : s.data ≠ []) : s ≠ "" := by
  intro he
  exact h (by rw [he])

theorem bearer_append_ne_empty (tok : String) : "Bearer " ++ tok ≠ "" := by
  apply string_ne_empty_of_data_ne
  rw [String.data_append]
  intro hnil
  exact absurd (List.append_eq_nil.mp hnil).1 (by decide)

theorem goSplitSpace_bearer (tok : String) (h : spaceChar ∉ tok.data) :
    goSplitSpace ("Bearer " ++ tok) = ["Bearer", tok] := by
  unfold goSplitSpace
  have h0 : "Bearer ".data = ['B', 'e', 'a', 'r', 'e', 'r', spaceChar] := by decide
  have hdata : ("Bearer " ++ tok).data =
      ['B', 'e', 'a', 'r', 'e', 'r'] ++ spaceChar :: tok.data := by
    rw [String.data_append, h0]
    rfl
  rw [hdata, splitChars_append_sep spaceChar _ _ (by decide),
    splitChars_of_not_mem spaceChar _ h]
  simp only [List.map_cons, List.map_nil]

theorem authMW_no_header (db : List User) (now : Nat) :
    AuthMiddleware db "" now = .halt ⟨401, .err "Authorization header required" []⟩ := by
  unfold AuthMiddleware
  rw [if_pos rfl]

theorem authMW_bad_format (db : List User) (hdr : String) (now : Nat) (hne : hdr ≠ "")
    (hbad : (goSplitSpace hdr).length ≠ 2 ∨ (goSplitSpace hdr).head? ≠ some "Bearer") :
    AuthMiddleware db hdr now = .halt ⟨401, .err "Invalid authorization header format" []⟩ := by
  unfold AuthMiddleware
  rw [if_neg hne]
  rcases hsp : goSplitSpace hdr with _ | ⟨a, _ | ⟨b, _ | ⟨c, rest⟩⟩⟩
  · exact absurd hsp (goSplitSpace_ne_nil hdr)
  · rfl
  · have ha : a ≠ "Bearer" := by
      rcases hbad with hbad | hbad
      · rw [hsp] at hbad
        simp at hbad
      · rw [hsp] at hbad
        simpa using hbad
    simp [ha]
  · rfl

theorem authMW_invalid_token (db : List User) (tok : String) (now : Nat)
    (hsp : spaceChar ∉ tok.data) (e : JWTError) (hval : ValidateJWT tok now = .error e) :
    AuthMiddleware db ("Bearer " ++ tok) now = .halt ⟨401, .err "Invalid token" []⟩ := by
  unfold AuthMiddleware
  rw [if_neg (bearer_append_ne_empty tok), goSplitSpace_bearer tok hsp]
  simp [hval]

theorem authMW_invalid_subject (db : List User) (tok : String) (now : Nat)
    (hsp : spaceChar ∉ tok.data) (claims : JWTClaims)
    (hval : ValidateJWT tok now = .ok claims) (huid : uuidFromString claims.userID = none) :
    AuthMiddleware db ("Bearer " ++ tok) now = .halt ⟨401, .err "Invalid user ID in token" []⟩ := by
  unfold AuthMiddleware
  rw [if_neg (bearer_append_ne_empty tok), goSplitSpace_bearer tok hsp]
  simp [hval, huid]

theorem authMW_user_not_found (db : List User) (tok : String) (now : Nat)
    (hsp : spaceChar ∉ tok.data) (claims : JWTClaims) (uid : UUID)
    (hval : ValidateJWT tok now = .ok claims) (huid : uuidFromString claims.userID = some uid)
    (hdb : dbFindByID db uid = none) :
    AuthMiddleware db ("Bearer " ++ tok) now = .halt ⟨401, .err "User not found" []⟩ := by
  unfold AuthMiddleware
  rw [if_neg (bearer_append_ne_empty tok), goSplitSpace_bearer tok hsp]
  simp [hval, huid, hdb]

theorem authMW_proceed (db : List User) (tok : String) (now : Nat)
    (hsp : spaceChar ∉ tok.data) (claims : JWTClaims) (uid : UUID) (user : User)
    (hval : ValidateJWT tok now = .ok claims) (huid : uuidFromString claims.userID = some uid)
    (hdb : dbFindByID db uid = some user) :
    AuthMiddleware db ("Bearer " ++ tok) now = .proceed user uid := by
  unfold AuthMiddleware
  rw [if_neg (bearer_append_ne_empty tok), goSplitSpace_bearer tok hsp]
  simp [hval, huid, hdb]

theorem authMW_halt_inv (db : List User) (hdr : String) (now : Nat) (resp : HttpResponse)
    (h : AuthMiddleware db hdr now = .halt resp) :
    resp.status = 401 ∧ ∃ msg, resp.body = .err msg [] := by
  unfold AuthMiddleware at h
  split at h
  · injection h with h2
    subst h2
    exact ⟨rfl, _, rfl⟩
  · split at h
    · split at h
      · injection h with h2
        subst h2
        exact ⟨rfl, _, rfl⟩
      · split at h
        · injection h with h2
          subst h2
          exact ⟨rfl, _, rfl⟩
        · split at h
          · injection h with h2
            subst h2
            exact ⟨rfl, _, rfl⟩
          · split at h
            · injection h with h2
              subst h2
              exact ⟨rfl, _, rfl⟩
            · exact absurd h (by simp)
    · injection h with h2
      subst h2
      exact ⟨rfl, _, rfl⟩

theorem errorDetails_ne_nil (errs : List (String × String)) (h : errs ≠ []) :
    errorDetails errs ≠ [] := by
  unfold errorDetails
  intro hmap
  rw [List.map_eq_nil_iff, List.dedup_eq_nil, List.map_eq_nil_iff] at hmap
  exact h hmap

/-- The claims record `GenerateJWT` builds for a user at Unix second `now`. -/
def generatedClaims (u : User) (now : Nat) : JWTClaims :=
  { userID := u.id.val
    email := u.email
    role := u.role
    expiresAt := now + 24 * 3600
    issuedAt := now
    notBefore := now
    issuer := "production-ready-go-backend"
    subject := u.id.val }

theorem GenerateJWT_eq (u : User) (now : Nat) :
    GenerateJWT u now = (signToken (generatedClaims u now) jwtSecretKey, now + 24 * 3600) := rfl

theorem generatedClaims_clean (u : User) (now : Nat) (hid : cleanStr u.id.val)
    (hem : cleanStr u.email) (hro : cleanStr u.role) :
    cleanClaims (generatedClaims u now) :=
  ⟨hid, hem, hro, issuerTag_clean, hid⟩

theorem validateJWT_signToken_expired (c : JWTClaims) (now : Nat) (hc : cleanClaims c)
    (hexp : c.expiresAt < now) :
    ValidateJWT (signToken c jwtSecretKey) now = .error .tokenExpired := by
  unfold ValidateJWT
  rw [splitChars_signToken c jwtSecretKey hc jwtSecretKey_clean.2.1]
  simp [mk_data, parseClaims_encodeClaims c hc, hexp]

/-! ## Concrete sample data for witnesses and counterexamples -/

def sampleId : UUID := ⟨"d290f1ee-6c54-4b01-90e6-d701748f0851"⟩

def sampleUser : User :=
  { id := sampleId
    name := "John Doe"
    email := "john@example.com"
    passwordHash := bcryptGenerateFromPassword "password123"
    role := RoleUser
    createdAt := 1730000000
    updatedAt := 1730000000
    password := ""
    passwordConfirm := "" }

def adminUser : User :=
  { sampleUser with email := "admin@example.com", role := RoleAdmin }

/-! ## Claim theorems -/

/-- C1: for every identity with a well-formed id, email and role, decoding
(at any instant of the token's validity window) the token produced by
`GenerateJWT` succeeds and returns claims whose `user_id` and `sub` equal
the identity's id, whose email equals the identity's email and whose role
equals the identity's role. -/
theorem C1_issue_decode_roundtrip (u : User) (now t : Nat)
    (hid : cleanStr u.id.val) (hemail : cleanStr u.email) (hrole : cleanStr u.role)
    (h1 : now ≤ t) (h2 : t ≤ now + 24 * 3600) :
    ∃ claims, ValidateJWT (GenerateJWT u now).1 t = .ok claims ∧
      claims.userID = u.id.val ∧ claims.subject = u.id.val ∧
      claims.email = u.email ∧ claims.role = u.role := by
  refine ⟨generatedClaims u now, ?_, rfl, rfl, rfl, rfl⟩
  rw [GenerateJWT_eq]
  exact validateJWT_signToken (generatedClaims u now) t
    (generatedClaims_clean u now hid hemail hrole)
    (by simp only [generatedClaims]; omega)
    (by simp only [generatedClaims]; omega)

/-- Witness for C1 at a concrete identity and instant. -/
theorem C1_issue_decode_roundtrip_witness :
    ∃ claims, ValidateJWT (GenerateJWT sampleUser 1730000000).1 1730000000 = .ok claims ∧
      claims.userID = sampleUser.id.val ∧ claims.subject = sampleUser.id.val ∧
      claims.email = sampleUser.email ∧ claims.role = sampleUser.role :=
  C1_issue_decode_roundtrip sampleUser 1730000000 1730000000 (by decide) (by decide)
    (by decide) (by decide) (by decide)

/-- C2: decoding any issued token at any time past its expiry instant
fails with the expired error and never returns usable claims; moreover a
decode that returns claims at time `t` only does so for a structurally
correct token correctly signed with the process secret whose validity
window contains `t` — any other string is rejected with an error. -/
theorem C2_decode_rejects_expired_and_malformed :
    (∀ (u : User) (now t : Nat), cleanStr u.id.val → cleanStr u.email → cleanStr u.role →
      now + 24 * 3600 < t →
      ValidateJWT (GenerateJWT u now).1 t = .error .tokenExpired) ∧
    (∀ (s : String) (t : Nat) (claims : JWTClaims), ValidateJWT s t = .ok claims →
      claims.notBefore ≤ t ∧ t ≤ claims.expiresAt ∧ s = signToken claims jwtSecretKey) := by
  constructor
  · intro u now t hid hem hro hlt
    rw [GenerateJWT_eq]
    exact validateJWT_signToken_expired (generatedClaims u now) t
      (generatedClaims_clean u now hid hem hro) (by simp only [generatedClaims]; omega)
  · intro s t claims h
    exact validateJWT_ok_inv s t claims h

/-- Witness for C2: a concrete token is rejected as expired one second
past its expiry. -/
theorem C2_decode_rejects_expired_and_malformed_witness :
    ValidateJWT (GenerateJWT sampleUser 1730000000).1 1730086401 = .error .tokenExpired :=
  C2_decode_rejects_expired_and_malformed.1 sampleUser 1730000000 1730086401
    (by decide) (by decide) (by decide) (by decide)

/-- C3: whenever the email lookup finds no identity or the password hash
comparison fails, `LoginHandler` renders exactly the same response —
status 401 with body error "Invalid credentials" — so the two failure
causes are indistinguishable to the caller. -/
theorem C3_login_indistinguishable_failures (db : List User) (req : LoginRequest) (now : Nat)
    (h : findByEmail db (goToLower req.email) = none ∨
         ∃ u, findByEmail db (goToLower req.email) = some u ∧
           User.ValidatePassword u req.password = false) :
    LoginHandler db req now = ⟨401, .err "Invalid credentials" []⟩ := by
  rcases h with h | ⟨u, hu, hpw⟩
  · simp [LoginHandler, h]
  · simp [LoginHandler, hu, hpw]

/-- Witness for C3: login against an empty store. -/
theorem C3_login_indistinguishable_failures_witness :
    LoginHandler [] ⟨"nobody@example.com", "password123"⟩ 0 =
      ⟨401, .err "Invalid credentials" []⟩ :=
  C3_login_indistinguishable_failures [] ⟨"nobody@example.com", "password123"⟩ 0 (Or.inl rfl)

/-- Counterexample to C4 as stated: two token issuances for the same
identity within the same Unix second produce bitwise-identical token
strings with identical issued-at (the claims coincide at the second
precision the library serializes, and HMAC signing is deterministic); the
repository's own refresh test sleeps one second before refreshing for
exactly this reason.  The decode exhibits the issued-at of that second. -/
theorem C4_counterexample :
    (GenerateJWT sampleUser 1730000000).1 = (GenerateJWT sampleUser 1730000000).1 ∧
    ∃ claims, ValidateJWT (GenerateJWT sampleUser 1730000000).1 1730000000 = .ok claims ∧
      claims.issuedAt = 1730000000 := by
  refine ⟨rfl, generatedClaims sampleUser 1730000000, ?_, rfl⟩
  rw [GenerateJWT_eq]
  exact validateJWT_signToken _ _ (by decide) (by decide) (by decide)

/-- C4 amended: token issuances for the same identity at distinct Unix
seconds yield distinct token strings, each independently valid and each
resolving to the same identity; issuances within the same second
coincide bitwise. -/
theorem C4_amended_refresh_distinct (u : User) (t1 t2 : Nat)
    (hid : cleanStr u.id.val) (hem : cleanStr u.email) (hro : cleanStr u.role)
    (hne : t1 ≠ t2) :
    (GenerateJWT u t1).1 ≠ (GenerateJWT u t2).1 ∧
    (∃ c1, ValidateJWT (GenerateJWT u t1).1 t1 = .ok c1 ∧ c1.userID = u.id.val) ∧
    (∃ c2, ValidateJWT (GenerateJWT u t2).1 t2 = .ok c2 ∧ c2.userID = u.id.val) := by
  have hc1 := generatedClaims_clean u t1 hid hem hro
  have hc2 := generatedClaims_clean u t2 hid hem hro
  refine ⟨?_, ⟨generatedClaims u t1, ?_, rfl⟩, ⟨generatedClaims u t2, ?_, rfl⟩⟩
  · intro heq
    rw [GenerateJWT_eq, GenerateJWT_eq] at heq
    have hcl := signToken_inj _ _ hc1 hc2 heq
    have ht : t1 = t2 := congrArg JWTClaims.issuedAt hcl
    exact hne ht
  · rw [GenerateJWT_eq]
    exact validateJWT_signToken _ _ hc1 (by simp only [generatedClaims]; omega)
      (by simp only [generatedClaims]; omega)
  · rw [GenerateJWT_eq]
    exact validateJWT_signToken _ _ hc2 (by simp only [generatedClaims]; omega)
      (by simp only [generatedClaims]; omega)

/-- Witness for the amended C4 at two adjacent seconds. -/
theorem C4_amended_refresh_distinct_witness :
    (GenerateJWT sampleUser 1730000000).1 ≠ (GenerateJWT sampleUser 1730000001).1 ∧
    (∃ c1, ValidateJWT (GenerateJWT sampleUser 1730000000).1 1730000000 = .ok c1 ∧
      c1.userID = sampleUser.id.val) ∧
    (∃ c2, ValidateJWT (GenerateJWT sampleUser 1730000001).1 1730000001 = .ok c2 ∧
      c2.userID = sampleUser.id.val) :=
  C4_amended_refresh_distinct sampleUser 1730000000 1730000001 (by decide) (by decide)
    (by decide) (by decide)

/-- C5: the authorization middleware runs its checks in the fixed source
order — header presence, two-space-separated-parts `Bearer` format, token
decode, subject-id parse, store lookup — each failure short-circuiting
with HTTP 401 and a structured error body; in particular the header
"InvalidFormat token" yields 401 with error "Invalid authorization
header format", and every halt is a 401 with an error body. -/
theorem C5_auth_middleware_state_machine :
    (∀ (db : List User) (now : Nat),
      AuthMiddleware db "" now = .halt ⟨401, .err "Authorization header required" []⟩) ∧
    (∀ (db : List User) (hdr : String) (now : Nat), hdr ≠ "" →
      ((goSplitSpace hdr).length ≠ 2 ∨ (goSplitSpace hdr).head? ≠ some "Bearer") →
      AuthMiddleware db hdr now = .halt ⟨401, .err "Invalid authorization header format" []⟩) ∧
    (∀ (db : List User) (tok : String) (now : Nat) (e : JWTError), spaceChar ∉ tok.data →
      ValidateJWT tok now = .error e →
      AuthMiddleware db ("Bearer " ++ tok) now = .halt ⟨401, .err "Invalid token" []⟩) ∧
    (∀ (db : List User) (tok : String) (now : Nat) (claims : JWTClaims), spaceChar ∉ tok.data →
      ValidateJWT tok now = .ok claims → uuidFromString claims.userID = none →
      AuthMiddleware db ("Bearer " ++ tok) now = .halt ⟨401, .err "Invalid user ID in token" []⟩) ∧
    (∀ (db : List User) (tok : String) (now : Nat) (claims : JWTClaims) (uid : UUID),
      spaceChar ∉ tok.data → ValidateJWT tok now = .ok claims →
      uuidFromString claims.userID = some uid → dbFindByID db uid = none →
      AuthMiddleware db ("Bearer " ++ tok) now = .halt ⟨401, .err "User not found" []⟩) ∧
    (∀ (db : List User) (tok : String) (now : Nat) (claims : JWTClaims) (uid : UUID)
      (user : User), spaceChar ∉ tok.data → ValidateJWT tok now = .ok claims →
      uuidFromString claims.userID = some uid → dbFindByID db uid = some user →
      AuthMiddleware db ("Bearer " ++ tok) now = .proceed user uid) ∧
    (∀ (db : List User) (now : Nat),
      AuthMiddleware db "InvalidFormat token" now =
        .halt ⟨401, .err "Invalid authorization header format" []⟩) ∧
    (∀ (db : List User) (hdr : String) (now : Nat) (resp : HttpResponse),
      AuthMiddleware db hdr now = .halt resp →
      resp.status = 401 ∧ ∃ msg, resp.body = .err msg []) := by
  refine ⟨authMW_no_header, ?_, ?_, ?_, ?_, ?_, ?_, authMW_halt_inv⟩
  · intro db hdr now h1 h2
    exact authMW_bad_format db hdr now h1 h2
  · intro db tok now e hsp hval
    exact authMW_invalid_token db tok now hsp e hval
  · intro db tok now claims hsp hval huid
    exact authMW_invalid_subject db tok now hsp claims hval huid
  · intro db tok now claims uid hsp hval huid hdb
    exact authMW_user_not_found db tok now hsp claims uid hval huid hdb
  · intro db tok now claims uid user hsp hval huid hdb
    exact authMW_proceed db tok now hsp claims uid user hval huid hdb
  · intro db now
    exact authMW_bad_format db _ now (by decide) (Or.inr (by decide))

/-- Witness for C5 at the spec's concrete malformed header. -/
theorem C5_auth_middleware_state_machine_witness :
    AuthMiddleware [] "InvalidFormat token" 5 =
      .halt ⟨401, .err "Invalid authorization header format" []⟩ :=
  C5_auth_middleware_state_machine.2.1 [] "InvalidFormat token" 5 (by decide)
    (Or.inr (by decide))

/-- C6: the role gate continues to the handler iff the bound identity's
role equals `admin`; a non-admin identity gets 403 Forbidden, and an
unbound context gets 401 and never continues. -/
theorem C6_admin_gate :
    AdminMiddleware none = .halt ⟨401, .err "Unauthorized" []⟩ ∧
    (∀ u : User, u.role ≠ RoleAdmin →
      AdminMiddleware (some u) = .halt ⟨403, .err "Admin access required" []⟩) ∧
    (∀ u : User, AdminMiddleware (some u) = .next ↔ u.role = RoleAdmin) := by
  refine ⟨rfl, ?_, ?_⟩
  · intro u hu
    simp [AdminMiddleware, User.IsAdmin, hu]
  · intro u
    by_cases hu : u.role = RoleAdmin
    · simp [AdminMiddleware, User.IsAdmin, hu]
    · simp [AdminMiddleware, User.IsAdmin, hu]

/-- Witness for C6: an admin identity passes the gate. -/
theorem C6_admin_gate_witness : AdminMiddleware (some adminUser) = .next :=
  (C6_admin_gate.2.2 adminUser).mpr rfl

/-- Counterexample to C7 as stated: a password/confirmation mismatch is
rejected by the handler before validation runs, with the bare body
`error = "Password confirmation does not match"` and an empty (omitted)
details map — not a per-field detail map. -/
theorem C7_counterexample :
    RegisterHandler [] ⟨"John Doe", "john@example.com", "password123", "password456"⟩
      sampleId 1730000000 = ⟨400, .err "Password confirmation does not match" []⟩ := by
  decide

/-- C7 amended: when password equals its confirmation but validation
fails, the handler responds 400 with error "Validation failed" and a
non-empty per-field details map joined from the validation errors; a
password/confirmation mismatch instead short-circuits with the bare
"Password confirmation does not match" body and no details. -/
theorem C7_amended_validation_details (db : List User) (req : RegisterRequest)
    (freshId : UUID) (now : Nat) (hmatch : req.password = req.passwordConfirm)
    (hverrs : (validateAndCreate db (registerUser req) freshId now).1 ≠ []) :
    RegisterHandler db req freshId now =
      ⟨400, .err "Validation failed"
        (errorDetails (validateAndCreate db (registerUser req) freshId now).1)⟩ ∧
    errorDetails (validateAndCreate db (registerUser req) freshId now).1 ≠ [] := by
  constructor
  · unfold RegisterHandler
    rw [if_neg (by simp [hmatch])]
    simp [hverrs]
  · exact errorDetails_ne_nil _ hverrs

/-- Witness for the amended C7: a too-short name produces the 400
response with a non-empty details map. -/
theorem C7_amended_validation_details_witness :
    RegisterHandler [] ⟨"J", "john@example.com", "password123", "password123"⟩
        sampleId 1730000000 =
      ⟨400, .err "Validation failed"
        (errorDetails ((validateAndCreate []
          (registerUser ⟨"J", "john@example.com", "password123", "password123"⟩)
          sampleId 1730000000).1))⟩ ∧
    errorDetails ((validateAndCreate []
      (registerUser ⟨"J", "john@example.com", "password123", "password123"⟩)
      sampleId 1730000000).1) ≠ [] :=
  C7_amended_validation_details [] ⟨"J", "john@example.com", "password123", "password123"⟩
    sampleId 1730000000 rfl (by decide)

/-- Counterexample to C8 as stated: the login lookup lower-cases but does
not trim the submitted email, so a login that differs from the stored
email only by a leading space, with the correct password, fails with 401
instead of succeeding. -/
theorem C8_counterexample :
    LoginHandler [sampleUser] ⟨" john@example.com", "password123"⟩ 1730000000 =
      ⟨401, .err "Invalid credentials" []⟩ := by
  decide

/-- C8 amended: the lookup key is the submitted email lower-cased (no
trimming), so a login whose email differs from the stored normalized
email only in letter case, with the correct password, succeeds. -/
theorem C8_amended_lowercase_lookup (u : User) (e pw : String) (now : Nat)
    (hcase : goToLower e = u.email)
    (hpw : u.passwordHash = bcryptGenerateFromPassword pw) :
    LoginHandler [u] ⟨e, pw⟩ now =
      ⟨200, .auth (GenerateJWT u now).1 u (GenerateJWT u now).2⟩ := by
  unfold LoginHandler
  have hfind : findByEmail [u] (goToLower e) = some u := by
    simp [findByEmail, hcase, List.find?]
  rw [hfind]
  simp [User.ValidatePassword, hpw]

/-- Witness for the amended C8: an upper-cased variant of the stored
email logs in successfully. -/
theorem C8_amended_lowercase_lookup_witness :
    LoginHandler [sampleUser] ⟨"JOHN@example.com", "password123"⟩ 1730000000 =
      ⟨200, .auth (GenerateJWT sampleUser 1730000000).1 sampleUser
        (GenerateJWT sampleUser 1730000000).2⟩ :=
  C8_amended_lowercase_lookup sampleUser "JOHN@example.com" "password123" 1730000000
    (by decide) rfl

/-- C9: the outward serialization of an identity — both the struct's json
tags and the safe copy marshalled by `User.String()` — contains exactly
the fields id, name, email, role, created_at, updated_at, never the
password hash or the virtual password fields, and does not depend on
their values. -/
theorem C9_serialization_excludes_secrets :
    (∀ u : User,
      (userJSONFields u).map Prod.fst =
        ["id", "name", "email", "role", "created_at", "updated_at"] ∧
      (userStringFields u).map Prod.fst =
        ["id", "name", "email", "role", "created_at", "updated_at"]) ∧
    (∀ u : User,
      "password_hash" ∉ (userJSONFields u).map Prod.fst ∧
      "password" ∉ (userJSONFields u).map Prod.fst ∧
      "password_confirm" ∉ (userJSONFields u).map Prod.fst ∧
      "password_hash" ∉ (userStringFields u).map Prod.fst ∧
      "password" ∉ (userStringFields u).map Prod.fst ∧
      "password_confirm" ∉ (userStringFields u).map Prod.fst) ∧
    (∀ (u : User) (ph p pc : String),
      userJSONFields { u with passwordHash := ph, password := p, passwordConfirm := pc } =
        userJSONFields u ∧
      userStringFields { u with passwordHash := ph, password := p, passwordConfirm := pc } =
        userStringFields u) := by
  refine ⟨fun u => ⟨rfl, rfl⟩, fun u => ?_, fun u ph p pc => ⟨rfl, rfl⟩⟩
  simp [userJSONFields, userStringFields]

/-- C10: the header "Bearer " (empty token after exactly one space)
passes the format check — it splits into exactly two parts with scheme
`Bearer` — and is rejected at the decode step with "Invalid token";
conversely any header containing two or more spaces splits into more
than two parts and is rejected with the format error, no decode being
attempted. -/
theorem C10_empty_token_and_extra_spaces :
    goSplitSpace "Bearer " = ["Bearer", ""] ∧
    (∀ (db : List User) (now : Nat),
      AuthMiddleware db "Bearer " now = .halt ⟨401, .err "Invalid token" []⟩) ∧
    (∀ (db : List User) (hdr : String) (now : Nat), 2 ≤ hdr.data.count spaceChar →
      AuthMiddleware db hdr now = .halt ⟨401, .err "Invalid authorization header format" []⟩) := by
  refine ⟨by decide, ?_, ?_⟩
  · intro db now
    have h0 : ("Bearer " : String) = "Bearer " ++ "" := by
      apply string_eq_of_data_eq
      rw [String.data_append]
      simp
    rw [h0]
    exact authMW_invalid_token db "" now (by decide) .tokenMalformed rfl
  · intro db hdr now hcount
    refine authMW_bad_format db hdr now ?_ (Or.inl ?_)
    · intro he
      rw [he] at hcount
      exact absurd hcount (by decide)
    · rw [goSplitSpace_length]
      omega

/-- Witness for C10: a header with two spaces is rejected as malformed. -/
theorem C10_empty_token_and_extra_spaces_witness :
    AuthMiddleware [] "Bearer a b" 0 =
      .halt ⟨401, .err "Invalid authorization header format" []⟩ :=
  C10_empty_token_and_extra_spaces.2.2 [] "Bearer a b" 0 (by decide)

end GoBackend
